import Mathlib

/-
Verification development for the CheckersRL repository (src/checkers.py).

The Python program is shallowly embedded below.  Pygame rendering (window,
drawing, images, mouse translation, the main loop) is out of scope per the
specification; only the game-logic state and operations are modelled:

  * `Piece`  — class Piece (the pixel fields x/y and calc_pos/draw are
    rendering-only and omitted; `move` becomes a functional record update).
  * `Grid`/`Board` — class Board: the 8x8 list-of-lists grid with the
    sentinel 0 for an empty square modelled as `Option Piece`, plus the
    red_left/white_left/red_kings/white_kings counters (Python ints → Int).
  * `Game`  — class Game: selected piece, board, turn, valid_moves.

Fallible operations return `Option _`: `none` models a Python exception
(IndexError / AttributeError / KeyError) or, for a negative index, Python's
silent wrap-around — both are "the access left rows 0..7 / cols 0..7", which
is what the totality theorems rule out.

The mutually recursive Board._traverse_left/_traverse_right helpers differ
only in the column bound test (`left < 0` vs `right >= COLS`), the column of
the recorded key, and the column step (−1 vs +1).  They are embedded as the
single function `traverse` over a direction flag (`isLeft`), driven by a
`fuel` counter so that the recursion is structural and kernel-reducible; the
wrappers `_traverse_left`/`_traverse_right` keep the source names.  The
totality theorem shows the fixed fuel 64 is never exhausted on a wellformed
board, which is exactly the bounded-recursion claim of the specification.
-/

/-- The two piece colors.  In the source RED/WHITE are RGB tuples used both
for pieces and rendering; pieces only ever carry RED or WHITE, so an
inductive with those two constructors is the faithful piece-color model. -/
inductive Color where
  | RED : Color
  | WHITE : Color
deriving DecidableEq, Repr

/-- ROWS constant from the source (8). -/
def ROWS : Int := 8

/-- COLS constant from the source (8). -/
def COLS : Int := 8

/-- class Piece: row, col, color, king.  The pixel coordinates x, y and
calc_pos are rendering-only and omitted.  `king` starts false (constructor)
and `make_king`/`move` become record updates at use sites. -/
structure Piece where
  row : Int
  col : Int
  color : Color
  king : Bool
deriving DecidableEq, Repr

/-- One square of the grid: Python uses the sentinel 0 for an empty square
and a Piece object otherwise; here `none` is the sentinel. -/
abbrev Square : Type := Option Piece

/-- The board grid: Python's list of 8 row lists of 8 squares. -/
abbrev Grid : Type := List (List Square)

/-- Grid read `self.board[r][c]`.  `some sq` is a successful in-range read;
`none` means the indices left rows 0..7 / cols 0..7 (a positive overflow is
a Python IndexError, a negative index would silently wrap — the totality
theorems prove neither ever happens in the program's calls). -/
def gget (g : Grid) (r c : Int) : Option Square :=
  if 0 ≤ r ∧ 0 ≤ c then (g.get? r.toNat).bind (fun rowL => rowL.get? c.toNat)
  else none

/-- Grid write `self.board[r][c] = v`, with the same in-range convention as
`gget`. -/
def gset (g : Grid) (r c : Int) (v : Square) : Option Grid :=
  match gget g r c with
  | none => none
  | some _ => some (g.set r.toNat (((g.get? r.toNat).getD []).set c.toNat v))

/-- A wellformed grid: 8 rows of 8 squares, as built by create_board. -/
def wfG (g : Grid) : Bool :=
  g.length == 8 && g.all (fun rowL => rowL.length == 8)

/-- The move dictionary `moves`: Python dict from destination (row, col) to
the list of captured pieces, modelled as an association list with
last-write-wins insertion, preserving dict update semantics. -/
abbrev Moves : Type := List ((Int × Int) × List Piece)

/-- Dict membership `k in moves`. -/
def dmem (m : Moves) (k : Int × Int) : Bool :=
  m.any (fun e => decide (e.1 = k))

/-- Dict lookup `moves[k]` (`none` would be a Python KeyError). -/
def dget (m : Moves) (k : Int × Int) : Option (List Piece) :=
  (m.find? (fun e => decide (e.1 = k))).map (fun e => e.2)

/-- Dict assignment `moves[k] = v`: overwrite an existing binding in place,
otherwise append. -/
def dinsert (m : Moves) (k : Int × Int) (v : List Piece) : Moves :=
  if dmem m k then m.map (fun e => if e.1 = k then (k, v) else e)
  else m ++ [(k, v)]

/-- Dict merge `m1.update(m2)`: entries of m2 overwrite entries of m1. -/
def dupdate (m1 m2 : Moves) : Moves :=
  m2.foldl (fun acc e => dinsert acc e.1 e.2) m1

/-- Python `range(start, stop, step)` as a list, for the steps 1 and −1 —
the only step values the program ever passes (the literals −1 and 1 in
get_valid_moves, forwarded unchanged by the traversal). -/
def rangeI (start stop step : Int) : List Int :=
  if 0 < step then (List.range (stop - start).toNat).map (fun i : Nat => start + step * (i : Int))
  else (List.range (start - stop).toNat).map (fun i : Nat => start + step * (i : Int))

/-- Fuel for the traversal recursion.  The recursion advances at least one
row per nested call inside rows −1..8, so 64 is far more than the program
can consume; the totality theorem proves this fuel is never exhausted. -/
def FUEL : Nat := 64

/-- The body shared by Board._traverse_left and Board._traverse_right.
`isLeft` selects the leftward variant (bound test `left < 0`, column step
−1) versus the rightward one (bound test `right >= COLS`, column step +1);
every other line is identical between the two source functions.  `rs` is
the remaining `for r in range(start, stop, step)` iteration, `col` the
current left/right column, `skipped` the accumulated captures passed in,
`last` the loop's last-seen enemy piece.  `moves` is only ever written in
the empty-square arm, after which the loop breaks, so each arm returns the
dictionary directly; the arms that just `break` return the empty dict. -/
def traverse (b : Grid) (fuel : Nat) (isLeft : Bool) (rs : List Int) (step : Int)
    (color : Color) (col : Int) (skipped last : List Piece) : Option Moves :=
  match fuel with
  | 0 => none
  | f + 1 =>
    match rs with
    | [] => some []
    | r :: rest =>
      if (if isLeft then col < 0 else COLS ≤ col) then some []
      else
        match gget b r col with
        | none => none
        | some (some cur) =>
          if cur.color = color then some []
          else traverse b f isLeft rest step color (if isLeft then col - 1 else col + 1) skipped [cur]
        | some none =>
          if skipped ≠ [] ∧ last = [] then some []
          else
            let entry := if skipped ≠ [] then last ++ skipped else last
            let base := dinsert [] (r, col) entry
            if last ≠ [] then
              let row := if step = -1 then max (r - 3) (-1) else min (r + 3) ROWS
              match traverse b f true (rangeI (r + step) row step) step color (col - 1) last [],
                    traverse b f false (rangeI (r + step) row step) step color (col + 1) last [] with
              | some m1, some m2 => some (dupdate (dupdate base m1) m2)
              | _, _ => none
            else some base

/-- Board._traverse_left(start, stop, step, color, left, skipped=[]). -/
def _traverse_left (b : Grid) (fuel : Nat) (start stop step : Int) (color : Color)
    (left : Int) (skipped : List Piece) : Option Moves :=
  traverse b fuel true (rangeI start stop step) step color left skipped []

/-- Board._traverse_right(start, stop, step, color, right, skipped=[]). -/
def _traverse_right (b : Grid) (fuel : Nat) (start stop step : Int) (color : Color)
    (right : Int) (skipped : List Piece) : Option Moves :=
  traverse b fuel false (rangeI start stop step) step color right skipped []

/-- class Board: the grid plus the live and king counters. -/
structure Board where
  board : Grid
  red_left : Int
  white_left : Int
  red_kings : Int
  white_kings : Int
deriving DecidableEq, Repr

/-- Board.create_board: rows 0–2 WHITE, rows 5–7 RED, on squares with
col % 2 == (row + 1) % 2; everything else the empty sentinel. -/
def create_board : Grid :=
  (List.range 8).map (fun row =>
    (List.range 8).map (fun col =>
      if col % 2 = (row + 1) % 2 then
        if row < 3 then some ⟨(row : Int), (col : Int), Color.WHITE, false⟩
        else if row > 4 then some ⟨(row : Int), (col : Int), Color.RED, false⟩
        else none
      else none))

/-- Board.__init__: fresh grid, 12 pieces each, no kings. -/
def Board.initial : Board :=
  { board := create_board, red_left := 12, white_left := 12, red_kings := 0, white_kings := 0 }

/-- Board.get_piece(row, col): plain grid read, no bounds enforcement of its
own (`none` = the read itself failed). -/
def Board.get_piece (b : Board) (r c : Int) : Option Square :=
  gget b.board r c

/-- Board.move(piece, row, col): swap the two grid cells, update the piece's
coordinates, and promote to king when the destination row is 0 or ROWS−1 and
the piece is not yet a king (incrementing the matching kings counter).
Python mutates the piece object in place; when the source square held that
very object (`srcSq = some p` — identity is positional per the data model)
the destination cell therefore shows the updated piece, which the final
conditional write models.  Calling this with the empty sentinel as `piece`
is a Python AttributeError; that cannot arise here since `p : Piece`. -/
def Board.move (b : Board) (p : Piece) (row col : Int) : Option (Board × Piece) :=
  (gget b.board row col).bind (fun destSq =>
  (gget b.board p.row p.col).bind (fun srcSq =>
  (gset b.board p.row p.col destSq).bind (fun g1 =>
  (gset g1 row col srcSq).bind (fun g2 =>
    let promote : Bool := (decide (row = ROWS - 1) || decide (row = 0)) && !p.king
    let p2 : Piece :=
      if promote then { p with row := row, col := col, king := true }
      else { p with row := row, col := col }
    (if srcSq = some p then gset g2 row col (some p2) else some g2).bind (fun g3 =>
      if promote then
        if p.color = Color.WHITE then
          some ({ b with board := g3, white_kings := b.white_kings + 1 }, p2)
        else
          some ({ b with board := g3, red_kings := b.red_kings + 1 }, p2)
      else
        some ({ b with board := g3 }, p2))))))

/-- Board.remove(pieces): for each entry, zero its grid square and then —
since the guard `if piece != 0` compares the *list element* against the
empty sentinel, not the grid content — decrement the matching live counter
for every Piece entry, whether or not the square actually held it.  A
sentinel entry (`none`) raises AttributeError at `piece.row` before the
guard is reached. -/
def Board.remove (b : Board) (pieces : List Square) : Option Board :=
  match pieces with
  | [] => some b
  | none :: _ => none
  | some piece :: rest =>
    match gset b.board piece.row piece.col none with
    | none => none
    | some g2 =>
      let b2 :=
        if piece.color = Color.RED then { b with board := g2, red_left := b.red_left - 1 }
        else { b with board := g2, white_left := b.white_left - 1 }
      Board.remove b2 rest

/-- Board.winner(): red_left <= 0 checked first (WHITE wins), then
white_left <= 0 (RED wins), else no winner yet. -/
def Board.winner (b : Board) : Option Color :=
  if b.red_left ≤ 0 then some Color.WHITE
  else if b.white_left ≤ 0 then some Color.RED
  else none

/-- Board.get_valid_moves(piece): probe down-left and down-right rows for
RED or a king, up-left and up-right rows for WHITE or a king, merging the
four partial dictionaries with dict-update semantics in source order. -/
def Board.get_valid_moves (b : Board) (piece : Piece) : Option Moves :=
  let left := piece.col - 1
  let right := piece.col + 1
  let row := piece.row
  (if piece.color = Color.RED ∨ piece.king = true then
    (_traverse_left b.board FUEL (row - 1) (max (row - 3) (-1)) (-1) piece.color left []).bind
      (fun a =>
        (_traverse_right b.board FUEL (row - 1) (max (row - 3) (-1)) (-1) piece.color
            right []).bind
          (fun c => some (dupdate (dupdate [] a) c)))
  else some []).bind (fun m1 =>
    if piece.color = Color.WHITE ∨ piece.king = true then
      (_traverse_left b.board FUEL (row + 1) (min (row + 3) ROWS) 1 piece.color left []).bind
        (fun a =>
          (_traverse_right b.board FUEL (row + 1) (min (row + 3) ROWS) 1 piece.color
              right []).bind
            (fun c => some (dupdate (dupdate m1 a) c)))
    else some m1)

/-- class Game: turn controller state.  `selected` holds the selected piece
(Python: a reference to the Piece object; identity is positional).  The
embedding stores the piece value captured at selection time: the reference
itself is never reassigned by _move, and although in Python the referenced
object's row/col fields change in place when it is the piece being moved,
no claim depends on the coordinates seen through `selected` — only on
whether it is cleared. -/
structure Game where
  selected : Option Piece
  board : Board
  turn : Color
  valid_moves : Moves
deriving DecidableEq, Repr

/-- Game.__init__/_init: no selection, fresh board, RED to move. -/
def Game.initial : Game :=
  { selected := none, board := Board.initial, turn := Color.RED, valid_moves := [] }

/-- Game.change_turn(): clear valid_moves and flip the turn. -/
def Game.change_turn (g : Game) : Game :=
  { g with valid_moves := [],
           turn := if g.turn = Color.RED then Color.WHITE else Color.RED }

/-- Game._move(row, col): legal only when a piece is selected and (row, col)
is a key of valid_moves; then the piece fetched at the selected square is
relocated via Board.move, the associated captured list (if non-empty) is
removed, and change_turn runs.  Both failure guards return the state
unchanged with False.  Fetching an empty selected square would make
board.move raise (none); `selected` itself is not written here. -/
def Game._move (g : Game) (row col : Int) : Option (Game × Bool) :=
  match g.selected with
  | none => some (g, false)
  | some sel =>
    if dmem g.valid_moves (row, col) then
      match Board.get_piece g.board sel.row sel.col with
      | none => none
      | some none => none
      | some (some ptm) =>
        (dget g.valid_moves (row, col)).bind (fun skipped =>
          (Board.move g.board ptm row col).bind (fun bm =>
            (if skipped ≠ [] then Board.remove bm.1 (skipped.map some) else some bm.1).bind
              (fun b2 => some (Game.change_turn { g with board := b2 }, true))))
    else some (g, false)

/-- The fall-through tail of Game.select: look at the clicked square and, if
it holds a piece of the current turn's color, select it, compute its
valid_moves, and succeed; otherwise fail without touching the state. -/
def select_tail (g : Game) (row col : Int) : Option (Game × Bool) :=
  match Board.get_piece g.board row col with
  | none => none
  | some none => some (g, false)
  | some (some piece) =>
    if piece.color = g.turn then
      (Board.get_valid_moves g.board piece).bind (fun vm =>
        some ({ g with selected := some piece, valid_moves := vm }, true))
    else some (g, false)

/-- Game.select(row, col).  With a selection present, first try the move; on
failure clear the selection and re-run select on the same square — that
recursive call starts with no selection, so it is exactly one execution of
the fall-through tail (written unfolded here so the definition stays
non-recursive and kernel-reducible); its boolean result is discarded but its
state changes persist.  In every case the enclosing call then falls through
to the tail itself. -/
def Game.select (g : Game) (row col : Int) : Option (Game × Bool) :=
  match g.selected with
  | some _ =>
    match Game._move g row col with
    | none => none
    | some (g1, true) => select_tail g1 row col
    | some (g1, false) =>
      match select_tail { g1 with selected := none } row col with
      | none => none
      | some (g3, _) => select_tail g3 row col
  | none => select_tail g row col


/-
Concrete scenario boards used by the claim counterexamples and witnesses.
-/

/-- An 8x8 grid with every square empty. -/
def emptyGrid : Grid := List.replicate 8 (List.replicate 8 none)

/-- Put a piece on the square given by its own coordinates. -/
def place (g : Grid) (p : Piece) : Grid := (gset g p.row p.col (some p)).getD g

/-- The spec scenario's color-A piece at (2,1). -/
def pW21 : Piece := { row := 2, col := 1, color := Color.WHITE, king := false }

/-- The spec scenario's color-B piece at (3,2). -/
def pR32 : Piece := { row := 3, col := 2, color := Color.RED, king := false }

/-- The spec scenario's color-B piece at (5,4). -/
def pR54 : Piece := { row := 5, col := 4, color := Color.RED, king := false }

/-- The double-jump scenario grid: WHITE at (2,1), RED at (3,2) and (5,4). -/
def grid1 : Grid := place (place (place emptyGrid pW21) pR32) pR54

/-- The double-jump scenario board. -/
def board1 : Board :=
  { board := grid1, red_left := 2, white_left := 1, red_kings := 0, white_kings := 0 }

/-- A WHITE man at (1,2), used to probe promotion at row 0. -/
def pC2 : Piece := { row := 1, col := 2, color := Color.WHITE, king := false }

/-- Board holding only the WHITE man at (1,2). -/
def bC2 : Board :=
  { board := place emptyGrid pC2, red_left := 0, white_left := 1, red_kings := 0,
    white_kings := 0 }

/-- Board with an empty grid but one RED counted as alive. -/
def bC3 : Board :=
  { board := emptyGrid, red_left := 1, white_left := 1, red_kings := 0, white_kings := 0 }

/-- A stale RED piece reference at (0,1); the grid square is empty. -/
def pC3 : Piece := { row := 0, col := 1, color := Color.RED, king := false }

/-- The board after removing the stale reference. -/
def bC3r : Board := (Board.remove bC3 [some pC3]).getD bC3

/-- Board holding only the WHITE man at (2,1). -/
def bG : Board :=
  { board := place emptyGrid pW21, red_left := 1, white_left := 1, red_kings := 0,
    white_kings := 0 }

/-- The offered moves of the WHITE man at (2,1) on `bG`. -/
def vmG : Moves := (Board.get_valid_moves bG pW21).getD []

/-- Game with the WHITE man at (2,1) selected, WHITE to move, its moves offered. -/
def gC4 : Game :=
  { selected := some pW21, board := bG, turn := Color.WHITE, valid_moves := vmG }

/-- The state returned by clicking the offered destination (3,0) in `gC4`. -/
def outC4 : Game × Bool := (Game.select gC4 3 0).getD (gC4, true)

/-- A second WHITE man at (1,0). -/
def qC5 : Piece := { row := 1, col := 0, color := Color.WHITE, king := false }

/-- Board holding the WHITE men at (2,1) and (1,0). -/
def bC5 : Board :=
  { board := place (place emptyGrid pW21) qC5, red_left := 0, white_left := 2,
    red_kings := 0, white_kings := 0 }

/-- Game with (2,1) selected but no offered moves, so any click fails as a move. -/
def gC5 : Game :=
  { selected := some pW21, board := bC5, turn := Color.WHITE, valid_moves := [] }

/-- The offered moves of the WHITE man at (1,0) on `bC5`. -/
def vmC5 : Moves := (Board.get_valid_moves bC5 qC5).getD []

/-- A degenerate board where both live counters are at or below zero. -/
def degBoard : Board :=
  { board := emptyGrid, red_left := -1, white_left := -2, red_kings := 0, white_kings := 0 }

/-
Definitions used by the traversal lemmas: `travInv` collects the column
bounds holding at every traversal call the program makes, `FN` is a fuel
budget decreasing along the recursion (the row advances by `step` at every
nested call, inside rows -1..8), and `oddSquaresOnly` states the
dark-square coloring.
-/

def travInv (isLeft : Bool) (col : Int) : Prop :=
  (isLeft = true → col ≤ 7) ∧ (isLeft = false → 0 ≤ col)

def FN (step s : Int) : Nat := 3 * (if step = 1 then (10 - s).toNat else (s + 3).toNat)

/-- Pieces occur only on squares whose coordinate sum is odd. -/
def oddSquaresOnly (g : Grid) : Bool :=
  (List.range 8).all (fun i => (List.range 8).all (fun j =>
    match gget g (i : Int) (j : Int) with
    | some (some _) => (i + j) % 2 == 1
    | _ => true))

/-
Lemma layer: grid reads and writes.
-/

theorem get?_some_lt {α : Type} {l : List α} {n : Nat} {a : α} (h : l.get? n = some a) :
    n < l.length := by
  by_contra hn
  rw [List.get?_eq_none.2 (by omega)] at h
  exact Option.noConfusion h

theorem gget_eq_some_iff (g : Grid) (r c : Int) (sq : Square) :
    gget g r c = some sq ↔
      0 ≤ r ∧ 0 ≤ c ∧ ∃ rowL, g.get? r.toNat = some rowL ∧ rowL.get? c.toNat = some sq := by
  unfold gget
  by_cases h : 0 ≤ r ∧ 0 ≤ c
  · rw [if_pos h, Option.bind_eq_some]
    constructor
    · rintro ⟨rowL, h1, h2⟩; exact ⟨h.1, h.2, rowL, h1, h2⟩
    · rintro ⟨-, -, rowL, h1, h2⟩; exact ⟨rowL, h1, h2⟩
  · rw [if_neg h]
    constructor
    · intro hc; exact Option.noConfusion hc
    · rintro ⟨h1, h2, -⟩; exact absurd ⟨h1, h2⟩ h

theorem wfG_iff (g : Grid) :
    wfG g = true ↔ g.length = 8 ∧ ∀ rowL ∈ g, rowL.length = 8 := by
  simp [wfG, List.all_eq_true]

theorem gget_isSome_of_wf {g : Grid} (hwf : wfG g = true) {r c : Int}
    (h1 : 0 ≤ r) (h2 : r ≤ 7) (h3 : 0 ≤ c) (h4 : c ≤ 7) :
    ∃ sq, gget g r c = some sq := by
  rcases (wfG_iff g).1 hwf with ⟨hlen, hrows⟩
  cases hrow : g.get? r.toNat with
  | none => rw [List.get?_eq_none] at hrow; omega
  | some rowL =>
    have hmem : rowL ∈ g := List.get?_mem hrow
    have hclen : c.toNat < rowL.length := by have := hrows rowL hmem; omega
    cases hcell : rowL.get? c.toNat with
    | none => rw [List.get?_eq_none] at hcell; omega
    | some sq =>
      refine ⟨sq, ?_⟩
      rw [gget_eq_some_iff]
      exact ⟨h1, h3, rowL, hrow, hcell⟩

theorem gset_isSome_of_gget {g : Grid} {r c : Int} {sq : Square} (h : gget g r c = some sq)
    (v : Square) : ∃ g2, gset g r c v = some g2 := by
  unfold gset
  rw [h]
  exact ⟨_, rfl⟩

theorem gset_some_elim {g : Grid} {r c : Int} {v : Square} {g2 : Grid}
    (h : gset g r c v = some g2) :
    ∃ sq rowL, gget g r c = some sq ∧ g.get? r.toNat = some rowL ∧
      rowL.get? c.toNat = some sq ∧ 0 ≤ r ∧ 0 ≤ c ∧
      g2 = g.set r.toNat (rowL.set c.toNat v) := by
  unfold gset at h
  cases hg : gget g r c with
  | none => rw [hg] at h; exact Option.noConfusion h
  | some sq =>
    rw [hg] at h
    rcases (gget_eq_some_iff g r c sq).1 hg with ⟨h1, h2, rowL, hrow, hcell⟩
    rw [hrow] at h
    simp only [Option.getD_some] at h
    exact ⟨sq, rowL, rfl, hrow, hcell, h1, h2, (Option.some.inj h).symm⟩

theorem gget_gset_self {g : Grid} {r c : Int} {v : Square} {g2 : Grid}
    (h : gset g r c v = some g2) : gget g2 r c = some v := by
  rcases gset_some_elim h with ⟨sq, rowL, hg, hrow, hcell, h1, h2, rfl⟩
  have hrlt : r.toNat < g.length := get?_some_lt hrow
  have hclt : c.toNat < rowL.length := get?_some_lt hcell
  rw [gget_eq_some_iff]
  exact ⟨h1, h2, rowL.set c.toNat v, List.get?_set_eq_of_lt _ hrlt,
    List.get?_set_eq_of_lt _ hclt⟩

theorem gget_gset_other {g : Grid} {r c : Int} {v : Square} {g2 : Grid}
    (h : gset g r c v = some g2) (r2 c2 : Int) (hne : r ≠ r2 ∨ c ≠ c2) :
    gget g2 r2 c2 = gget g r2 c2 := by
  rcases gset_some_elim h with ⟨sq, rowL, hg, hrow, hcell, h1, h2, rfl⟩
  by_cases hpos : 0 ≤ r2 ∧ 0 ≤ c2
  · unfold gget
    rw [if_pos hpos, if_pos hpos]
    by_cases hrr : r.toNat = r2.toNat
    · have hreq : r = r2 := by omega
      have hcne : c.toNat ≠ c2.toNat := by
        rcases hne with hne | hne
        · exact absurd hreq hne
        · omega
      rw [← hrr, List.get?_set_eq_of_lt _ (get?_some_lt hrow), hrow]
      simp only [Option.some_bind]
      exact List.get?_set_ne _ _ hcne
    · rw [List.get?_set_ne _ _ hrr]
  · unfold gget
    rw [if_neg hpos, if_neg hpos]

theorem wfG_gset {g : Grid} (hwf : wfG g = true) {r c : Int} {v : Square} {g2 : Grid}
    (h : gset g r c v = some g2) : wfG g2 = true := by
  rcases gset_some_elim h with ⟨sq, rowL, hg, hrow, hcell, h1, h2, rfl⟩
  rcases (wfG_iff g).1 hwf with ⟨hlen, hrows⟩
  rw [wfG_iff]
  constructor
  · simpa using hlen
  · intro rowL2 hmem
    rcases List.mem_or_eq_of_mem_set hmem with hmem2 | rfl
    · exact hrows _ hmem2
    · have : rowL ∈ g := List.get?_mem hrow
      simpa using hrows _ this

/-
Lemma layer: the move dictionary.
-/

theorem dmem_exists_dget {m : Moves} {k : Int × Int} (h : dmem m k = true) :
    ∃ v, dget m k = some v := by
  induction m with
  | nil => simp [dmem] at h
  | cons e t ih =>
    by_cases he : e.1 = k
    · exact ⟨e.2, by simp [dget, List.find?_cons, he]⟩
    · have h2 : dmem t k = true := by
        simp [dmem] at h ⊢
        rcases h with h | h
        · exact absurd h he
        · exact h
      rcases ih h2 with ⟨v, hv⟩
      exact ⟨v, by simpa [dget, List.find?_cons, he] using hv⟩

theorem mem_dinsert {m : Moves} {k : Int × Int} {v : List Piece}
    {e : (Int × Int) × List Piece} (h : e ∈ dinsert m k v) : e ∈ m ∨ e = (k, v) := by
  unfold dinsert at h
  by_cases hm : dmem m k
  · rw [if_pos hm] at h
    rcases List.mem_map.1 h with ⟨a, ha, hae⟩
    by_cases hak : a.1 = k
    · rw [if_pos hak] at hae; exact Or.inr hae.symm
    · rw [if_neg hak] at hae; exact Or.inl (hae ▸ ha)
  · rw [if_neg hm] at h
    rcases List.mem_append.1 h with h | h
    · exact Or.inl h
    · simp at h; exact Or.inr h

theorem mem_dupdate {m1 m2 : Moves} {e : (Int × Int) × List Piece}
    (h : e ∈ dupdate m1 m2) : e ∈ m1 ∨ e ∈ m2 := by
  induction m2 generalizing m1 with
  | nil => exact Or.inl h
  | cons a t ih =>
    have h2 : e ∈ dupdate (dinsert m1 a.1 a.2) t := h
    rcases ih h2 with h3 | h3
    · rcases mem_dinsert h3 with h4 | h4
      · exact Or.inl h4
      · exact Or.inr (by simp [h4])
    · exact Or.inr (List.mem_cons_of_mem _ h3)

/-
Lemma layer: Python ranges with step 1 and −1.
-/

theorem rangeI_pos_eq (s stop : Int) :
    rangeI s stop 1 = if s < stop then s :: rangeI (s + 1) stop 1 else [] := by
  by_cases h : s < stop
  · rw [if_pos h]
    unfold rangeI
    rw [if_pos (by norm_num : (0:Int) < 1), if_pos (by norm_num : (0:Int) < 1)]
    have hn : (stop - s).toNat = (stop - (s + 1)).toNat + 1 := by omega
    have hfun : ((fun i : Nat => s + 1 * (i : Int)) ∘ Nat.succ) =
        (fun i : Nat => (s + 1) + 1 * (i : Int)) := by
      funext i
      simp only [Function.comp]
      push_cast
      ring
    rw [hn, List.range_succ_eq_map, List.map_cons, List.map_map, hfun]
    simp
  · rw [if_neg h]
    unfold rangeI
    rw [if_pos (by norm_num : (0:Int) < 1)]
    have hn : (stop - s).toNat = 0 := by omega
    simp [hn]

theorem rangeI_neg_eq (s stop : Int) :
    rangeI s stop (-1) = if stop < s then s :: rangeI (s - 1) stop (-1) else [] := by
  by_cases h : stop < s
  · rw [if_pos h]
    unfold rangeI
    rw [if_neg (by norm_num : ¬ (0:Int) < -1), if_neg (by norm_num : ¬ (0:Int) < -1)]
    have hn : (s - stop).toNat = ((s - 1) - stop).toNat + 1 := by omega
    have hfun : ((fun i : Nat => s + (-1) * (i : Int)) ∘ Nat.succ) =
        (fun i : Nat => (s - 1) + (-1) * (i : Int)) := by
      funext i
      simp only [Function.comp]
      push_cast
      ring
    rw [hn, List.range_succ_eq_map, List.map_cons, List.map_map, hfun]
    simp
  · rw [if_neg h]
    unfold rangeI
    rw [if_neg (by norm_num : ¬ (0:Int) < -1)]
    have hn : (s - stop).toNat = 0 := by omega
    simp [hn]

/-
Lemma layer: the traversal.  `travInv` collects the column bounds holding at
every traversal call the program makes; `FN` is a fuel budget decreasing
along the recursion (the row advances by `step` at every nested call, inside
rows −1..8).
-/

theorem traverse_nil (b : Grid) (f : Nat) (isLeft : Bool) (step : Int) (color : Color)
    (col : Int) (skipped last : List Piece) :
    traverse b (f + 1) isLeft [] step color col skipped last = some [] := rfl

theorem traverse_cons_bound (b : Grid) (f : Nat) (isLeft : Bool) (r : Int) (rest : List Int)
    (step : Int) (color : Color) (col : Int) (skipped last : List Piece)
    (hbound : if isLeft then col < 0 else COLS ≤ col) :
    traverse b (f + 1) isLeft (r :: rest) step color col skipped last = some [] := by
  show (if (if isLeft then col < 0 else COLS ≤ col) then some [] else _) = some []
  rw [if_pos hbound]

theorem traverse_cons_occupied (b : Grid) (f : Nat) (isLeft : Bool) (r : Int)
    (rest : List Int) (step : Int) (color : Color) (col : Int) (skipped last : List Piece)
    (cur : Piece) (hbound : ¬ (if isLeft then col < 0 else COLS ≤ col))
    (hsq : gget b r col = some (some cur)) :
    traverse b (f + 1) isLeft (r :: rest) step color col skipped last =
      if cur.color = color then some []
      else traverse b f isLeft rest step color (if isLeft then col - 1 else col + 1)
        skipped [cur] := by
  show (if (if isLeft then col < 0 else COLS ≤ col) then some [] else _) = _
  rw [if_neg hbound, hsq]

theorem traverse_cons_empty (b : Grid) (f : Nat) (isLeft : Bool) (r : Int)
    (rest : List Int) (step : Int) (color : Color) (col : Int) (skipped last : List Piece)
    (hbound : ¬ (if isLeft then col < 0 else COLS ≤ col))
    (hsq : gget b r col = some none) :
    traverse b (f + 1) isLeft (r :: rest) step color col skipped last =
      if skipped ≠ [] ∧ last = [] then some []
      else if last ≠ [] then
        match traverse b f true
            (rangeI (r + step) (if step = -1 then max (r - 3) (-1) else min (r + 3) ROWS) step)
            step color (col - 1) last [],
          traverse b f false
            (rangeI (r + step) (if step = -1 then max (r - 3) (-1) else min (r + 3) ROWS) step)
            step color (col + 1) last [] with
        | some m1, some m2 =>
          some (dupdate (dupdate
            (dinsert [] (r, col) (if skipped ≠ [] then last ++ skipped else last)) m1) m2)
        | _, _ => none
      else some (dinsert [] (r, col) (if skipped ≠ [] then last ++ skipped else last)) := by
  show (if (if isLeft then col < 0 else COLS ≤ col) then some [] else _) = _
  rw [if_neg hbound, hsq]

theorem FN_one (s : Int) : FN 1 s = 3 * (10 - s).toNat := by simp [FN]

theorem FN_negone (s : Int) : FN (-1) s = 3 * (s + 3).toNat := by norm_num [FN]

theorem dinsert_nil_eq (k : Int × Int) (v : List Piece) : dinsert [] k v = [(k, v)] := rfl

theorem traverse_some_of_inv (b : Grid) (hwf : wfG b = true) :
    ∀ (fuel : Nat) (isLeft : Bool) (s stop step col : Int) (color : Color)
      (skipped last : List Piece),
      ((step = 1 ∧ 0 ≤ s ∧ s ≤ 8 ∧ stop ≤ 8) ∨
       (step = -1 ∧ -1 ≤ s ∧ s ≤ 7 ∧ -1 ≤ stop)) →
      travInv isLeft col → FN step s ≤ fuel →
      ∃ m, traverse b fuel isLeft (rangeI s stop step) step color col skipped last = some m ∧
        ∀ e ∈ m, ((e : (Int × Int) × List Piece).1.1 + e.1.2) % 2 = (s + col) % 2 ∧
          gget b e.1.1 e.1.2 = some none := by
  intro fuel
  induction fuel with
  | zero =>
    intro isLeft s stop step col color skipped last hstep hinv hfn
    exfalso
    rcases hstep with ⟨rfl, h2, h3, h4⟩ | ⟨rfl, h2, h3, h4⟩
    · rw [FN_one] at hfn; omega
    · rw [FN_negone] at hfn; omega
  | succ f ih =>
    intro isLeft s stop step col color skipped last hstep hinv hfn
    rcases hstep with ⟨rfl, hs0, hs8, hstop⟩ | ⟨rfl, hsm1, hs7, hstopm⟩
    · -- step = 1: the row index climbs toward `stop ≤ 8`
      rw [rangeI_pos_eq]
      by_cases hlt : s < stop
      · rw [if_pos hlt]
        by_cases hbound : (if isLeft then col < 0 else COLS ≤ col)
        · rw [traverse_cons_bound b f isLeft s _ 1 color col skipped last hbound]
          exact ⟨[], rfl, by simp⟩
        · have hcols : 0 ≤ col ∧ col ≤ 7 := by
            cases isLeft with
            | true =>
              simp at hbound
              exact ⟨hbound, hinv.1 rfl⟩
            | false =>
              simp [COLS] at hbound
              exact ⟨hinv.2 rfl, by omega⟩
          rcases gget_isSome_of_wf hwf hs0 (by omega) hcols.1 hcols.2 with ⟨sq, hsq⟩
          cases sq with
          | some cur =>
            rw [traverse_cons_occupied b f isLeft s _ 1 color col skipped last cur hbound hsq]
            by_cases hcc : cur.color = color
            · rw [if_pos hcc]
              exact ⟨[], rfl, by simp⟩
            · rw [if_neg hcc]
              have hinv2 : travInv isLeft (if isLeft then col - 1 else col + 1) := by
                cases isLeft with
                | true => exact ⟨fun _ => by simp; omega, fun h => Bool.noConfusion h⟩
                | false => exact ⟨fun h => Bool.noConfusion h, fun _ => by simp; omega⟩
              have hfn2 : FN 1 (s + 1) ≤ f := by
                rw [FN_one] at hfn ⊢; omega
              rcases ih isLeft (s + 1) stop 1 (if isLeft then col - 1 else col + 1) color
                  skipped [cur] (Or.inl ⟨rfl, by omega, by omega, hstop⟩) hinv2 hfn2 with
                ⟨m, hm, hprop⟩
              refine ⟨m, hm, ?_⟩
              intro e he
              rcases hprop e he with ⟨hp, hemp⟩
              refine ⟨?_, hemp⟩
              cases isLeft <;> simp at hp <;> omega
          | none =>
            rw [traverse_cons_empty b f isLeft s _ 1 color col skipped last hbound hsq]
            by_cases hsk : skipped ≠ [] ∧ last = []
            · rw [if_pos hsk]
              exact ⟨[], rfl, by simp⟩
            · rw [if_neg hsk]
              by_cases hlast : last ≠ []
              · rw [if_pos hlast, if_neg (by norm_num : ¬ (1 : Int) = -1)]
                have hfnL : FN 1 (s + 1) ≤ f := by
                  rw [FN_one] at hfn ⊢; omega
                rcases ih true (s + 1) (min (s + 3) ROWS) 1 (col - 1) color last []
                    (Or.inl ⟨rfl, by omega, by omega, by simp only [ROWS]; omega⟩)
                    ⟨fun _ => by omega, fun h => Bool.noConfusion h⟩ hfnL with ⟨m1, hm1, hp1⟩
                rcases ih false (s + 1) (min (s + 3) ROWS) 1 (col + 1) color last []
                    (Or.inl ⟨rfl, by omega, by omega, by simp only [ROWS]; omega⟩)
                    ⟨fun h => Bool.noConfusion h, fun _ => by omega⟩ hfnL with ⟨m2, hm2, hp2⟩
                rw [hm1, hm2]
                refine ⟨_, rfl, ?_⟩
                intro e he
                rcases mem_dupdate he with he2 | he2
                · rcases mem_dupdate he2 with he3 | he3
                  · rw [dinsert_nil_eq] at he3
                    simp only [List.mem_singleton] at he3
                    rw [he3]
                    exact ⟨by simp, hsq⟩
                  · rcases hp1 e he3 with ⟨hp, hemp⟩
                    exact ⟨by omega, hemp⟩
                · rcases hp2 e he2 with ⟨hp, hemp⟩
                  exact ⟨by omega, hemp⟩
              · rw [if_neg hlast]
                refine ⟨_, rfl, ?_⟩
                intro e he
                rw [dinsert_nil_eq] at he
                simp only [List.mem_singleton] at he
                rw [he]
                exact ⟨by simp, hsq⟩
      · rw [if_neg hlt, traverse_nil]
        exact ⟨[], rfl, by simp⟩
    · -- step = -1: the row index descends toward `stop ≥ -1`
      rw [rangeI_neg_eq]
      by_cases hlt : stop < s
      · rw [if_pos hlt]
        by_cases hbound : (if isLeft then col < 0 else COLS ≤ col)
        · rw [traverse_cons_bound b f isLeft s _ (-1) color col skipped last hbound]
          exact ⟨[], rfl, by simp⟩
        · have hcols : 0 ≤ col ∧ col ≤ 7 := by
            cases isLeft with
            | true =>
              simp at hbound
              exact ⟨hbound, hinv.1 rfl⟩
            | false =>
              simp [COLS] at hbound
              exact ⟨hinv.2 rfl, by omega⟩
          rcases @gget_isSome_of_wf b hwf s col (by omega) (by omega) hcols.1 hcols.2 with ⟨sq, hsq⟩
          cases sq with
          | some cur =>
            rw [traverse_cons_occupied b f isLeft s _ (-1) color col skipped last cur hbound hsq]
            by_cases hcc : cur.color = color
            · rw [if_pos hcc]
              exact ⟨[], rfl, by simp⟩
            · rw [if_neg hcc]
              have hinv2 : travInv isLeft (if isLeft then col - 1 else col + 1) := by
                cases isLeft with
                | true => exact ⟨fun _ => by simp; omega, fun h => Bool.noConfusion h⟩
                | false => exact ⟨fun h => Bool.noConfusion h, fun _ => by simp; omega⟩
              have hfn2 : FN (-1) (s - 1) ≤ f := by
                rw [FN_negone] at hfn ⊢; omega
              rcases ih isLeft (s - 1) stop (-1) (if isLeft then col - 1 else col + 1) color
                  skipped [cur] (Or.inr ⟨rfl, by omega, by omega, hstopm⟩) hinv2 hfn2 with
                ⟨m, hm, hprop⟩
              refine ⟨m, hm, ?_⟩
              intro e he
              rcases hprop e he with ⟨hp, hemp⟩
              refine ⟨?_, hemp⟩
              cases isLeft <;> simp at hp <;> omega
          | none =>
            rw [traverse_cons_empty b f isLeft s _ (-1) color col skipped last hbound hsq]
            by_cases hsk : skipped ≠ [] ∧ last = []
            · rw [if_pos hsk]
              exact ⟨[], rfl, by simp⟩
            · rw [if_neg hsk]
              by_cases hlast : last ≠ []
              · rw [if_pos hlast, if_pos rfl]
                have hfnL : FN (-1) (s - 1) ≤ f := by
                  rw [FN_negone] at hfn ⊢; omega
                have hs1 : s + -1 = s - 1 := by ring
                rw [hs1]
                rcases ih true (s - 1) (max (s - 3) (-1)) (-1) (col - 1) color last []
                    (Or.inr ⟨rfl, by omega, by omega, by omega⟩)
                    ⟨fun _ => by omega, fun h => Bool.noConfusion h⟩ hfnL with ⟨m1, hm1, hp1⟩
                rcases ih false (s - 1) (max (s - 3) (-1)) (-1) (col + 1) color last []
                    (Or.inr ⟨rfl, by omega, by omega, by omega⟩)
                    ⟨fun h => Bool.noConfusion h, fun _ => by omega⟩ hfnL with ⟨m2, hm2, hp2⟩
                rw [hm1, hm2]
                refine ⟨_, rfl, ?_⟩
                intro e he
                rcases mem_dupdate he with he2 | he2
                · rcases mem_dupdate he2 with he3 | he3
                  · rw [dinsert_nil_eq] at he3
                    simp only [List.mem_singleton] at he3
                    rw [he3]
                    exact ⟨by simp, hsq⟩
                  · rcases hp1 e he3 with ⟨hp, hemp⟩
                    exact ⟨by omega, hemp⟩
                · rcases hp2 e he2 with ⟨hp, hemp⟩
                  exact ⟨by omega, hemp⟩
              · rw [if_neg hlast]
                refine ⟨_, rfl, ?_⟩
                intro e he
                rw [dinsert_nil_eq] at he
                simp only [List.mem_singleton] at he
                rw [he]
                exact ⟨by simp, hsq⟩
      · rw [if_neg hlt, traverse_nil]
        exact ⟨[], rfl, by simp⟩

/-
Lemma layer: the move generator.  On a wellformed board, for a piece with
coordinates inside 0..7, get_valid_moves completes (no exhausted fuel, no
out-of-range access) and every destination key shares the parity of the
piece's (row + col) and names an empty square of the input board.
-/

theorem get_valid_moves_keys (b : Board) (p : Piece) (hwf : wfG b.board = true)
    (h1 : 0 ≤ p.row) (h2 : p.row ≤ 7) (h3 : 0 ≤ p.col) (h4 : p.col ≤ 7) :
    ∃ m, Board.get_valid_moves b p = some m ∧
      ∀ e ∈ m, ((e : (Int × Int) × List Piece).1.1 + e.1.2) % 2 = (p.row + p.col) % 2 ∧
        gget b.board e.1.1 e.1.2 = some none := by
  rcases traverse_some_of_inv b.board hwf FUEL true (p.row - 1) (max (p.row - 3) (-1))
      (-1) (p.col - 1) p.color [] [] (Or.inr ⟨rfl, by omega, by omega, by omega⟩)
      ⟨fun _ => by omega, fun h => Bool.noConfusion h⟩
      (by rw [FN_negone]; unfold FUEL; omega) with ⟨mdl, hmdl, hpdl⟩
  rcases traverse_some_of_inv b.board hwf FUEL false (p.row - 1) (max (p.row - 3) (-1))
      (-1) (p.col + 1) p.color [] [] (Or.inr ⟨rfl, by omega, by omega, by omega⟩)
      ⟨fun h => Bool.noConfusion h, fun _ => by omega⟩
      (by rw [FN_negone]; unfold FUEL; omega) with ⟨mdr, hmdr, hpdr⟩
  rcases traverse_some_of_inv b.board hwf FUEL true (p.row + 1) (min (p.row + 3) ROWS)
      1 (p.col - 1) p.color [] [] (Or.inl ⟨rfl, by omega, by omega, by simp only [ROWS]; omega⟩)
      ⟨fun _ => by omega, fun h => Bool.noConfusion h⟩
      (by rw [FN_one]; unfold FUEL; omega) with ⟨mul, hmul, hpul⟩
  rcases traverse_some_of_inv b.board hwf FUEL false (p.row + 1) (min (p.row + 3) ROWS)
      1 (p.col + 1) p.color [] [] (Or.inl ⟨rfl, by omega, by omega, by simp only [ROWS]; omega⟩)
      ⟨fun h => Bool.noConfusion h, fun _ => by omega⟩
      (by rw [FN_one]; unfold FUEL; omega) with ⟨mur, hmur, hpur⟩
  simp only [Board.get_valid_moves, _traverse_left, _traverse_right]
  rw [hmdl, hmdr, hmul, hmur]
  by_cases hd : (p.color = Color.RED ∨ p.king = true) <;>
    by_cases hu : (p.color = Color.WHITE ∨ p.king = true)
  · rw [if_pos hd]
    simp only [Option.some_bind]
    rw [if_pos hu]
    refine ⟨_, rfl, ?_⟩
    intro e he
    rcases mem_dupdate he with he2 | he2
    · rcases mem_dupdate he2 with he3 | he3
      · rcases mem_dupdate he3 with he4 | he4
        · rcases mem_dupdate he4 with he5 | he5
          · simp at he5
          · rcases hpdl e he5 with ⟨hp, hemp⟩
            exact ⟨by omega, hemp⟩
        · rcases hpdr e he4 with ⟨hp, hemp⟩
          exact ⟨by omega, hemp⟩
      · rcases hpul e he3 with ⟨hp, hemp⟩
        exact ⟨by omega, hemp⟩
    · rcases hpur e he2 with ⟨hp, hemp⟩
      exact ⟨by omega, hemp⟩
  · rw [if_pos hd]
    simp only [Option.some_bind]
    rw [if_neg hu]
    refine ⟨_, rfl, ?_⟩
    intro e he
    rcases mem_dupdate he with he2 | he2
    · rcases mem_dupdate he2 with he3 | he3
      · simp at he3
      · rcases hpdl e he3 with ⟨hp, hemp⟩
        exact ⟨by omega, hemp⟩
    · rcases hpdr e he2 with ⟨hp, hemp⟩
      exact ⟨by omega, hemp⟩
  · rw [if_neg hd]
    simp only [Option.some_bind]
    rw [if_pos hu]
    refine ⟨_, rfl, ?_⟩
    intro e he
    rcases mem_dupdate he with he2 | he2
    · rcases mem_dupdate he2 with he3 | he3
      · simp at he3
      · rcases hpul e he3 with ⟨hp, hemp⟩
        exact ⟨by omega, hemp⟩
    · rcases hpur e he2 with ⟨hp, hemp⟩
      exact ⟨by omega, hemp⟩
  · rw [if_neg hd]
    simp only [Option.some_bind]
    rw [if_neg hu]
    exact ⟨[], rfl, by simp⟩

/-
Lemma layer: Board.remove.
-/

theorem remove_nil (b : Board) : Board.remove b [] = some b := rfl

theorem remove_cons_none (b : Board) (rest : List Square) :
    Board.remove b (none :: rest) = none := rfl

theorem remove_cons_eq (b : Board) (piece : Piece) (rest : List Square) (g2 : Grid)
    (h : gset b.board piece.row piece.col none = some g2) :
    Board.remove b (some piece :: rest) =
      Board.remove (if piece.color = Color.RED
        then { b with board := g2, red_left := b.red_left - 1 }
        else { b with board := g2, white_left := b.white_left - 1 }) rest := by
  conv_lhs => unfold Board.remove
  rw [h]

theorem remove_cons_fail (b : Board) (piece : Piece) (rest : List Square)
    (h : gset b.board piece.row piece.col none = none) :
    Board.remove b (some piece :: rest) = none := by
  conv_lhs => unfold Board.remove
  rw [h]

theorem remove_some_of_wf : ∀ (l : List Piece) (b : Board), wfG b.board = true →
    (∀ q ∈ l, 0 ≤ q.row ∧ q.row ≤ 7 ∧ 0 ≤ q.col ∧ q.col ≤ 7) →
    ∃ b2, Board.remove b (l.map some) = some b2 ∧ wfG b2.board = true := by
  intro l
  induction l with
  | nil => intro b hwf _; exact ⟨b, rfl, hwf⟩
  | cons q t ih =>
    intro b hwf hb
    rcases hb q (List.mem_cons_self _ _) with ⟨h1, h2, h3, h4⟩
    rcases gget_isSome_of_wf hwf h1 h2 h3 h4 with ⟨sq, hsq⟩
    rcases gset_isSome_of_gget hsq none with ⟨g2, hg2⟩
    have hwf2 : wfG g2 = true := wfG_gset hwf hg2
    rcases ih (if q.color = Color.RED then { b with board := g2, red_left := b.red_left - 1 }
               else { b with board := g2, white_left := b.white_left - 1 })
        (by by_cases hc : q.color = Color.RED <;> simp [hc, hwf2])
        (fun q2 hq2 => hb q2 (List.mem_cons_of_mem _ hq2)) with ⟨b3, hb3, hwf3⟩
    refine ⟨b3, ?_, hwf3⟩
    rw [List.map_cons, remove_cons_eq b q (t.map some) g2 hg2]
    exact hb3

theorem remove_cell_none_or_old : ∀ (l : List Square) (b b2 : Board),
    Board.remove b l = some b2 → ∀ r c sq, gget b2.board r c = some sq →
      sq = none ∨ gget b.board r c = some sq := by
  intro l
  induction l with
  | nil =>
    intro b b2 h r c sq hg
    simp only [remove_nil, Option.some.injEq] at h
    exact Or.inr (h ▸ hg)
  | cons x t ih =>
    intro b b2 h r c sq hg
    cases x with
    | none => rw [remove_cons_none] at h; exact Option.noConfusion h
    | some q =>
      cases hset : gset b.board q.row q.col none with
      | none => rw [remove_cons_fail b q t hset] at h; exact Option.noConfusion h
      | some g2 =>
        rw [remove_cons_eq b q t g2 hset] at h
        have hbd : (if q.color = Color.RED then { b with board := g2, red_left := b.red_left - 1 }
            else { b with board := g2, white_left := b.white_left - 1 }).board = g2 := by
          by_cases hc : q.color = Color.RED <;> simp [hc]
        rcases ih _ _ h r c sq hg with hnone | hold
        · exact Or.inl hnone
        · rw [hbd] at hold
          by_cases heq : q.row = r ∧ q.col = c
          · have hcell := gget_gset_self hset
            rw [heq.1, heq.2] at hcell
            rw [hcell] at hold
            exact Or.inl (Option.some.inj hold).symm
          · rw [gget_gset_other hset r c (by tauto)] at hold
            exact Or.inr hold

/-
Lemma layer: Board.move.
-/

theorem board_move_some (b : Board) (p : Piece) (row col : Int)
    (hwf : wfG b.board = true)
    (hp1 : 0 ≤ p.row) (hp2 : p.row ≤ 7) (hp3 : 0 ≤ p.col) (hp4 : p.col ≤ 7)
    (hr1 : 0 ≤ row) (hr2 : row ≤ 7) (hc1 : 0 ≤ col) (hc2 : col ≤ 7) :
    ∃ out, Board.move b p row col = some out ∧ wfG out.1.board = true := by
  rcases @gget_isSome_of_wf b.board hwf row col hr1 hr2 hc1 hc2 with ⟨destSq, hdest⟩
  rcases @gget_isSome_of_wf b.board hwf p.row p.col hp1 hp2 hp3 hp4 with ⟨srcSq, hsrc⟩
  rcases gset_isSome_of_gget hsrc destSq with ⟨g1, hg1⟩
  have hwf1 := wfG_gset hwf hg1
  rcases @gget_isSome_of_wf g1 hwf1 row col hr1 hr2 hc1 hc2 with ⟨sq1, hsq1⟩
  rcases gset_isSome_of_gget hsq1 srcSq with ⟨g2, hg2⟩
  have hwf2 := wfG_gset hwf1 hg2
  have hstep3 : ∀ (p2 : Piece), ∃ g3,
      (if srcSq = some p then gset g2 row col (some p2) else some g2) = some g3 ∧
      wfG g3 = true := by
    intro p2
    by_cases hali : srcSq = some p
    · rcases @gget_isSome_of_wf g2 hwf2 row col hr1 hr2 hc1 hc2 with ⟨sq2, hsq2⟩
      rcases gset_isSome_of_gget hsq2 (some p2) with ⟨g3, hg3⟩
      exact ⟨g3, by rw [if_pos hali, hg3], wfG_gset hwf2 hg3⟩
    · exact ⟨g2, by rw [if_neg hali], hwf2⟩
  unfold Board.move
  rw [hdest, hsrc]
  simp only [Option.some_bind]
  rw [hg1]
  simp only [Option.some_bind]
  rw [hg2]
  simp only [Option.some_bind]
  by_cases hpm : ((decide (row = ROWS - 1) || decide (row = 0)) && !p.king) = true
  · rcases hstep3 { p with row := row, col := col, king := true } with ⟨g3, hg3, hwf3⟩
    simp only [hpm, if_true]
    rw [hg3]
    simp only [Option.some_bind]
    by_cases hcw : p.color = Color.WHITE
    · rw [if_pos hcw]
      exact ⟨_, rfl, hwf3⟩
    · rw [if_neg hcw]
      exact ⟨_, rfl, hwf3⟩
  · rcases hstep3 { p with row := row, col := col } with ⟨g3, hg3, hwf3⟩
    simp only [hpm]
    simp only [Bool.false_eq_true, if_false]
    rw [hg3]
    simp only [Option.some_bind]
    exact ⟨_, rfl, hwf3⟩

theorem board_move_out (b : Board) (p : Piece) (row col : Int) (out : Board × Piece)
    (h : Board.move b p row col = some out) :
    out.2 = (if ((row = ROWS - 1 ∨ row = 0) ∧ p.king = false)
      then { p with row := row, col := col, king := true }
      else { p with row := row, col := col }) := by
  unfold Board.move at h
  simp only [Option.bind_eq_some] at h
  rcases h with ⟨destSq, hdest, srcSq, hsrc, g1, hg1, g2, hg2, g3, hg3, hfin⟩
  by_cases hpm : ((decide (row = ROWS - 1) || decide (row = 0)) && !p.king) = true
  · rw [if_pos (by simpa using hpm)]
    rw [if_pos hpm] at hfin
    by_cases hcw : p.color = Color.WHITE
    · rw [if_pos hcw] at hfin
      rw [← Option.some.inj hfin]
      simp [hpm]
    · rw [if_neg hcw] at hfin
      rw [← Option.some.inj hfin]
      simp [hpm]
  · rw [if_neg (by simpa using hpm)]
    rw [if_neg hpm] at hfin
    rw [← Option.some.inj hfin]
    simp [hpm]

theorem board_move_cell_of_src (b : Board) (p : Piece) (row col : Int) (out : Board × Piece)
    (hsrcp : gget b.board p.row p.col = some (some p))
    (h : Board.move b p row col = some out) :
    gget out.1.board row col = some (some out.2) ∧ out.2.color = p.color := by
  unfold Board.move at h
  simp only [Option.bind_eq_some] at h
  rcases h with ⟨destSq, hdest, srcSq, hsrc, g1, hg1, g2, hg2, g3, hg3, hfin⟩
  have hali : srcSq = some p := by
    rw [hsrcp] at hsrc
    exact (Option.some.inj hsrc).symm
  rw [if_pos hali] at hg3
  by_cases hpm : ((decide (row = ROWS - 1) || decide (row = 0)) && !p.king) = true
  · rw [if_pos hpm] at hfin hg3
    have hcell := gget_gset_self hg3
    by_cases hcw : p.color = Color.WHITE
    · rw [if_pos hcw] at hfin
      rw [← Option.some.inj hfin]
      simp [hpm, hcell]
    · rw [if_neg hcw] at hfin
      rw [← Option.some.inj hfin]
      simp [hpm, hcell]
  · rw [if_neg hpm] at hfin hg3
    have hcell := gget_gset_self hg3
    rw [← Option.some.inj hfin]
    simp [hpm, hcell]

theorem board_move_board_of_src (b : Board) (p : Piece) (row col : Int) (out : Board × Piece)
    (hsrcp : gget b.board p.row p.col = some (some p))
    (h : Board.move b p row col = some out) :
    wfG b.board = true → wfG out.1.board = true := by
  intro hwf
  unfold Board.move at h
  simp only [Option.bind_eq_some] at h
  rcases h with ⟨destSq, hdest, srcSq, hsrc, g1, hg1, g2, hg2, g3, hg3, hfin⟩
  have hali : srcSq = some p := by
    rw [hsrcp] at hsrc
    exact (Option.some.inj hsrc).symm
  rw [if_pos hali] at hg3
  have hwf2 : wfG g2 = true := wfG_gset (wfG_gset hwf hg1) hg2
  have hwf3 : wfG g3 = true := by
    by_cases hpm : ((decide (row = ROWS - 1) || decide (row = 0)) && !p.king) = true
    · rw [if_pos hpm] at hg3
      exact wfG_gset hwf2 hg3
    · rw [if_neg hpm] at hg3
      exact wfG_gset hwf2 hg3
  by_cases hpm : ((decide (row = ROWS - 1) || decide (row = 0)) && !p.king) = true
  · rw [if_pos hpm] at hfin
    by_cases hcw : p.color = Color.WHITE
    · rw [if_pos hcw] at hfin
      rw [← Option.some.inj hfin]
      exact hwf3
    · rw [if_neg hcw] at hfin
      rw [← Option.some.inj hfin]
      exact hwf3
  · rw [if_neg hpm] at hfin
    rw [← Option.some.inj hfin]
    exact hwf3

/-
Lemma layer: the turn controller.
-/

theorem game_move_fail_none (g : Game) (row col : Int) (h : g.selected = none) :
    Game._move g row col = some (g, false) := by
  unfold Game._move
  rw [h]

theorem game_move_fail_key (g : Game) (sel : Piece) (row col : Int)
    (hsel : g.selected = some sel) (hk : dmem g.valid_moves (row, col) = false) :
    Game._move g row col = some (g, false) := by
  obtain ⟨gs, gb, gt, gv⟩ := g
  simp only [Game._move]
  simp only at hsel hk
  rw [hsel]
  simp only [hk, Bool.false_eq_true, if_false]

theorem game_move_offered_eq (g : Game) (sel ptm : Piece) (row col : Int)
    (hsel : g.selected = some sel) (hk : dmem g.valid_moves (row, col) = true)
    (hp : Board.get_piece g.board sel.row sel.col = some (some ptm)) :
    Game._move g row col =
      (dget g.valid_moves (row, col)).bind (fun skipped =>
        (Board.move g.board ptm row col).bind (fun bm =>
          (if skipped ≠ [] then Board.remove bm.1 (skipped.map some) else some bm.1).bind
            (fun b2 => some (Game.change_turn { g with board := b2 }, true)))) := by
  obtain ⟨gs, gb, gt, gv⟩ := g
  simp only [Game._move]
  simp only at hsel hk hp
  rw [hsel]
  simp only [hk, if_true]
  rw [hp]

theorem game_move_none_sel (g : Game) (sel : Piece) (row col : Int)
    (hsel : g.selected = some sel) (hk : dmem g.valid_moves (row, col) = true)
    (hp : Board.get_piece g.board sel.row sel.col = none) :
    Game._move g row col = none := by
  obtain ⟨gs, gb, gt, gv⟩ := g
  simp only [Game._move]
  simp only at hsel hk hp
  rw [hsel]
  simp only [hk, if_true]
  rw [hp]

theorem game_move_empty_sel (g : Game) (sel : Piece) (row col : Int)
    (hsel : g.selected = some sel) (hk : dmem g.valid_moves (row, col) = true)
    (hp : Board.get_piece g.board sel.row sel.col = some none) :
    Game._move g row col = none := by
  obtain ⟨gs, gb, gt, gv⟩ := g
  simp only [Game._move]
  simp only at hsel hk hp
  rw [hsel]
  simp only [hk, if_true]
  rw [hp]

theorem game_move_false_unchanged (g : Game) (row col : Int) (gm : Game)
    (h : Game._move g row col = some (gm, false)) : gm = g := by
  cases hsel : g.selected with
  | none =>
    rw [game_move_fail_none g row col hsel] at h
    exact (Prod.mk.inj (Option.some.inj h)).1.symm
  | some sel =>
    by_cases hk : dmem g.valid_moves (row, col) = true
    · exfalso
      cases hp : Board.get_piece g.board sel.row sel.col with
      | none =>
        rw [game_move_none_sel g sel row col hsel hk hp] at h
        exact Option.noConfusion h
      | some sq =>
        cases sq with
        | none =>
          rw [game_move_empty_sel g sel row col hsel hk hp] at h
          exact Option.noConfusion h
        | some ptm =>
          rw [game_move_offered_eq g sel ptm row col hsel hk hp] at h
          simp only [Option.bind_eq_some] at h
          rcases h with ⟨skipped, hsk, bm, hbm, b2, hb2, hfin⟩
          exact Bool.noConfusion (Prod.mk.inj (Option.some.inj hfin)).2
    · rw [game_move_fail_key g sel row col hsel (by simpa using hk)] at h
      exact (Prod.mk.inj (Option.some.inj h)).1.symm

theorem select_tail_oob (g : Game) (row col : Int)
    (h : Board.get_piece g.board row col = none) : select_tail g row col = none := by
  unfold select_tail
  rw [h]

theorem select_tail_empty (g : Game) (row col : Int)
    (h : Board.get_piece g.board row col = some none) :
    select_tail g row col = some (g, false) := by
  unfold select_tail
  rw [h]

theorem select_tail_piece (g : Game) (row col : Int) (q : Piece)
    (h : Board.get_piece g.board row col = some (some q)) :
    select_tail g row col =
      (if q.color = g.turn then
        (Board.get_valid_moves g.board q).bind (fun vm =>
          some ({ g with selected := some q, valid_moves := vm }, true))
      else some (g, false)) := by
  unfold select_tail
  rw [h]

theorem select_eq_of_selected (g : Game) (sel : Piece) (row col : Int)
    (hsel : g.selected = some sel) :
    Game.select g row col =
      match Game._move g row col with
      | none => none
      | some (g1, true) => select_tail g1 row col
      | some (g1, false) =>
        match select_tail { g1 with selected := none } row col with
        | none => none
        | some (g3, _) => select_tail g3 row col := by
  unfold Game.select
  rw [hsel]

theorem select_eq_of_no_selection (g : Game) (row col : Int) (hsel : g.selected = none) :
    Game.select g row col = select_tail g row col := by
  unfold Game.select
  rw [hsel]

theorem select_after_move_true (g : Game) (sel : Piece) (g1 : Game) (row col : Int)
    (hsel : g.selected = some sel) (hmv : Game._move g row col = some (g1, true)) :
    Game.select g row col = select_tail g1 row col := by
  rw [select_eq_of_selected g sel row col hsel, hmv]

theorem select_after_move_false (g : Game) (sel : Piece) (g1 : Game) (row col : Int)
    (hsel : g.selected = some sel) (hmv : Game._move g row col = some (g1, false)) :
    Game.select g row col =
      match select_tail { g1 with selected := none } row col with
      | none => none
      | some (g3, _) => select_tail g3 row col := by
  rw [select_eq_of_selected g sel row col hsel, hmv]

theorem gget_some_bounds_of_wf {g : Grid} (hwf : wfG g = true) {r c : Int} {sq : Square}
    (h : gget g r c = some sq) : 0 ≤ r ∧ r ≤ 7 ∧ 0 ≤ c ∧ c ≤ 7 := by
  rcases (gget_eq_some_iff g r c sq).1 h with ⟨h1, h2, rowL, hrow, hcell⟩
  rcases (wfG_iff g).1 hwf with ⟨hlen, hrows⟩
  have hr := get?_some_lt hrow
  have hc := get?_some_lt hcell
  have := hrows rowL (List.get?_mem hrow)
  omega

theorem remove_wf_preserve : ∀ (l : List Square) (b b2 : Board),
    Board.remove b l = some b2 → wfG b.board = true → wfG b2.board = true := by
  intro l
  induction l with
  | nil =>
    intro b b2 h hwf
    simp only [remove_nil, Option.some.injEq] at h
    rw [← h]
    exact hwf
  | cons x t ih =>
    intro b b2 h hwf
    cases x with
    | none => rw [remove_cons_none] at h; exact Option.noConfusion h
    | some q =>
      cases hset : gset b.board q.row q.col none with
      | none => rw [remove_cons_fail b q t hset] at h; exact Option.noConfusion h
      | some g2 =>
        rw [remove_cons_eq b q t g2 hset] at h
        have hwf2 := wfG_gset hwf hset
        refine ih _ _ h ?_
        by_cases hc : q.color = Color.RED <;> simp [hc, hwf2]

/-- Core behavior of Game.select when the clicked square is an offered
destination of the selected piece: the internal move succeeds (turn flips,
valid_moves is cleared) but `selected` is never written, and the
fall-through re-selection attempt sees a piece of the side that just moved
(or an emptied square), so it fails and the call returns False. -/
theorem select_success_core (g : Game) (sel ptm : Piece) (row col : Int) (out : Game × Bool)
    (hwf : wfG g.board.board = true)
    (hsel : g.selected = some sel)
    (hk : dmem g.valid_moves (row, col) = true)
    (hp : Board.get_piece g.board sel.row sel.col = some (some ptm))
    (hsrcp : gget g.board.board ptm.row ptm.col = some (some ptm))
    (hcol : ptm.color = g.turn)
    (hout : Game.select g row col = some out) :
    out.2 = false ∧ out.1.selected = some sel ∧ out.1.valid_moves = [] ∧
      out.1.turn = (if g.turn = Color.RED then Color.WHITE else Color.RED) := by
  rcases dmem_exists_dget hk with ⟨skipped, hdget⟩
  have hmv := game_move_offered_eq g sel ptm row col hsel hk hp
  rw [hdget] at hmv
  simp only [Option.some_bind] at hmv
  cases hbm : Board.move g.board ptm row col with
  | none =>
    rw [hbm] at hmv
    simp only [Option.none_bind] at hmv
    rw [select_eq_of_selected g sel row col hsel, hmv] at hout
    exact Option.noConfusion hout
  | some bm =>
    rw [hbm] at hmv
    simp only [Option.some_bind] at hmv
    have hcell := board_move_cell_of_src g.board ptm row col bm hsrcp hbm
    have hwfbm : wfG bm.1.board = true :=
      board_move_board_of_src g.board ptm row col bm hsrcp hbm hwf
    cases hb2 : (if skipped ≠ [] then Board.remove bm.1 (skipped.map some) else some bm.1) with
    | none =>
      rw [hb2] at hmv
      simp only [Option.none_bind] at hmv
      rw [select_eq_of_selected g sel row col hsel, hmv] at hout
      exact Option.noConfusion hout
    | some b2 =>
      rw [hb2] at hmv
      simp only [Option.some_bind] at hmv
      rw [select_after_move_true g sel _ row col hsel hmv] at hout
      have hwfb2 : wfG b2.board = true := by
        by_cases hsk : skipped ≠ []
        · rw [if_pos hsk] at hb2
          exact remove_wf_preserve _ _ _ hb2 hwfbm
        · rw [if_neg hsk] at hb2
          rw [← Option.some.inj hb2]
          exact hwfbm
      rcases gget_some_bounds_of_wf hwfbm hcell.1 with ⟨hr1, hr2, hc1, hc2⟩
      rcases @gget_isSome_of_wf b2.board hwfb2 row col hr1 hr2 hc1 hc2 with ⟨sq, hsq⟩
      have hsqcases : sq = none ∨ sq = some bm.2 := by
        by_cases hsk : skipped ≠ []
        · rw [if_pos hsk] at hb2
          rcases remove_cell_none_or_old _ _ _ hb2 row col sq hsq with h | h
          · exact Or.inl h
          · rw [hcell.1] at h
            exact Or.inr (Option.some.inj h).symm
        · rw [if_neg hsk] at hb2
          rw [← Option.some.inj hb2, hcell.1] at hsq
          exact Or.inr (Option.some.inj hsq).symm
      rcases hsqcases with rfl | rfl
      · rw [select_tail_empty (Game.change_turn { g with board := b2 }) row col (by exact hsq)] at hout
        rw [← Option.some.inj hout]
        exact ⟨rfl, hsel, rfl, rfl⟩
      · rw [select_tail_piece (Game.change_turn { g with board := b2 }) row col bm.2 (by exact hsq)] at hout
        have hturnne : ¬ bm.2.color = (Game.change_turn { g with board := b2 }).turn := by
          rw [hcell.2, hcol]
          show ¬ g.turn = (if g.turn = Color.RED then Color.WHITE else Color.RED)
          cases g.turn <;> simp
        rw [if_neg hturnne] at hout
        rw [← Option.some.inj hout]
        exact ⟨rfl, hsel, rfl, rfl⟩

/-- Core behavior of Game.select when the attempted move fails and the
clicked square holds an own-color piece: the selection is dropped, the
recursive call re-selects the clicked piece (computing its moves), the
enclosing call's fall-through confirms it, and the call succeeds. -/
theorem select_reselect_core (g : Game) (sel q : Piece) (row col : Int) (vm : Moves)
    (hsel : g.selected = some sel)
    (hfail : Game._move g row col = some (g, false))
    (hq : Board.get_piece g.board row col = some (some q))
    (hcol : q.color = g.turn)
    (hvm : Board.get_valid_moves g.board q = some vm) :
    Game.select g row col =
      some ({ g with selected := some q, valid_moves := vm }, true) := by
  have htail1 : select_tail { g with selected := none } row col =
      some ({ g with selected := some q, valid_moves := vm }, true) := by
    rw [select_tail_piece ({ g with selected := none } : Game) row col q (by exact hq)]
    rw [if_pos (show q.color = ({ g with selected := none } : Game).turn from hcol)]
    rw [show Board.get_valid_moves ({ g with selected := none } : Game).board q = some vm
      from hvm]
    rfl
  rw [select_after_move_false g sel g row col hsel hfail, htail1]
  show select_tail ({ g with selected := some q, valid_moves := vm } : Game) row col =
    some ({ g with selected := some q, valid_moves := vm }, true)
  rw [select_tail_piece ({ g with selected := some q, valid_moves := vm } : Game) row col q
    (by exact hq)]
  rw [if_pos (show q.color = ({ g with selected := some q, valid_moves := vm } : Game).turn
    from hcol)]
  rw [show Board.get_valid_moves
      ({ g with selected := some q, valid_moves := vm } : Game).board q = some vm from hvm]
  rfl

theorem game_move_success (g : Game) (sel ptm : Piece) (row col : Int) (skipped : List Piece)
    (hwf : wfG g.board.board = true)
    (hsel : g.selected = some sel)
    (hk : dmem g.valid_moves (row, col) = true)
    (hp : Board.get_piece g.board sel.row sel.col = some (some ptm))
    (hdget : dget g.valid_moves (row, col) = some skipped)
    (hptm : 0 ≤ ptm.row ∧ ptm.row ≤ 7 ∧ 0 ≤ ptm.col ∧ ptm.col ≤ 7)
    (hrc : 0 ≤ row ∧ row ≤ 7 ∧ 0 ≤ col ∧ col ≤ 7)
    (hskip : ∀ q ∈ skipped, 0 ≤ q.row ∧ q.row ≤ 7 ∧ 0 ≤ q.col ∧ q.col ≤ 7) :
    ∃ bm b2, Board.move g.board ptm row col = some bm ∧
      (if skipped ≠ [] then Board.remove bm.1 (skipped.map some) else some bm.1) = some b2 ∧
      Game._move g row col = some (Game.change_turn { g with board := b2 }, true) := by
  rcases board_move_some g.board ptm row col hwf hptm.1 hptm.2.1 hptm.2.2.1 hptm.2.2.2
    hrc.1 hrc.2.1 hrc.2.2.1 hrc.2.2.2 with ⟨bm, hbm, hwfbm⟩
  have hb2ex : ∃ b2,
      (if skipped ≠ [] then Board.remove bm.1 (skipped.map some) else some bm.1) = some b2 := by
    by_cases hsk : skipped ≠ []
    · rcases remove_some_of_wf skipped bm.1 hwfbm hskip with ⟨b2, hb2, -⟩
      exact ⟨b2, by rw [if_pos hsk]; exact hb2⟩
    · exact ⟨bm.1, by rw [if_neg hsk]⟩
  rcases hb2ex with ⟨b2, hb2⟩
  refine ⟨bm, b2, hbm, hb2, ?_⟩
  rw [game_move_offered_eq g sel ptm row col hsel hk hp, hdget]
  simp only [Option.some_bind]
  rw [hbm]
  simp only [Option.some_bind]
  rw [hb2]
  simp only [Option.some_bind]

theorem game_move_true_elim (g : Game) (row col : Int) (g2 : Game)
    (h : Game._move g row col = some (g2, true)) :
    (∃ sel, g.selected = some sel) ∧ dmem g.valid_moves (row, col) = true ∧
      g2.valid_moves = [] ∧
      g2.turn = (if g.turn = Color.RED then Color.WHITE else Color.RED) ∧
      g2.selected = g.selected := by
  cases hsel : g.selected with
  | none =>
    rw [game_move_fail_none g row col hsel] at h
    exact absurd (Prod.mk.inj (Option.some.inj h)).2 (by simp)
  | some sel =>
    by_cases hk : dmem g.valid_moves (row, col) = true
    · refine ⟨⟨sel, rfl⟩, hk, ?_⟩
      cases hp : Board.get_piece g.board sel.row sel.col with
      | none =>
        rw [game_move_none_sel g sel row col hsel hk hp] at h
        exact Option.noConfusion h
      | some sq =>
        cases sq with
        | none =>
          rw [game_move_empty_sel g sel row col hsel hk hp] at h
          exact Option.noConfusion h
        | some ptm =>
          rw [game_move_offered_eq g sel ptm row col hsel hk hp] at h
          simp only [Option.bind_eq_some] at h
          rcases h with ⟨skipped, hskv, bm, hbm, b2, hb2, hfin⟩
          rw [← (Prod.mk.inj (Option.some.inj hfin)).1]
          exact ⟨rfl, rfl, hsel⟩
    · rw [game_move_fail_key g sel row col hsel (by simpa using hk)] at h
      exact absurd (Prod.mk.inj (Option.some.inj h)).2 (by simp)

/-
Lemma layer: the dark-square (odd parity) coloring invariant.
-/

theorem oddSquaresOnly_iff (g : Grid) : oddSquaresOnly g = true ↔
    ∀ i : Nat, i < 8 → ∀ j : Nat, j < 8 → ∀ pc : Piece,
      gget g (i : Int) (j : Int) = some (some pc) → ((i : Int) + (j : Int)) % 2 = 1 := by
  unfold oddSquaresOnly
  simp only [List.all_eq_true, List.mem_range]
  constructor
  · intro h i hi j hj pc hpc
    have h2 := h i hi j hj
    rw [hpc] at h2
    simp only [beq_iff_eq] at h2
    omega
  · intro h i hi j hj
    cases hg : gget g (i : Int) (j : Int) with
    | none => rfl
    | some sq =>
      cases sq with
      | none => rfl
      | some pc =>
        have h2 := h i hi j hj pc hg
        simp only [beq_iff_eq]
        omega

theorem move_preserves_odd (b : Board) (p : Piece) (row col : Int) (out : Board × Piece)
    (hodd : oddSquaresOnly b.board = true) (hp : (p.row + p.col) % 2 = 1)
    (hrc : (row + col) % 2 = 1) (h : Board.move b p row col = some out) :
    oddSquaresOnly out.1.board = true := by
  unfold Board.move at h
  simp only [Option.bind_eq_some] at h
  rcases h with ⟨destSq, hdest, srcSq, hsrc, g1, hg1, g2, hg2, g3, hg3, hfin⟩
  have hboard : out.1.board = g3 := by
    by_cases hpm : ((decide (row = ROWS - 1) || decide (row = 0)) && !p.king) = true
    · rw [if_pos hpm] at hfin
      by_cases hcw : p.color = Color.WHITE
      · rw [if_pos hcw] at hfin; rw [← Option.some.inj hfin]
      · rw [if_neg hcw] at hfin; rw [← Option.some.inj hfin]
    · rw [if_neg hpm] at hfin; rw [← Option.some.inj hfin]
  rw [hboard]
  rw [oddSquaresOnly_iff] at hodd ⊢
  intro i hi j hj pc hpc
  by_cases hRC : ((i : Int) = row ∧ (j : Int) = col)
  · omega
  by_cases hPP : ((i : Int) = p.row ∧ (j : Int) = p.col)
  · omega
  have hne2 : row ≠ (i : Int) ∨ col ≠ (j : Int) := by tauto
  have hne1 : p.row ≠ (i : Int) ∨ p.col ≠ (j : Int) := by tauto
  have e3 : gget g3 (i : Int) (j : Int) = gget g2 (i : Int) (j : Int) := by
    by_cases hali : srcSq = some p
    · rw [if_pos hali] at hg3
      exact gget_gset_other hg3 _ _ hne2
    · rw [if_neg hali] at hg3
      rw [← Option.some.inj hg3]
  have e2 : gget g2 (i : Int) (j : Int) = gget g1 (i : Int) (j : Int) :=
    gget_gset_other hg2 _ _ hne2
  have e1 : gget g1 (i : Int) (j : Int) = gget b.board (i : Int) (j : Int) :=
    gget_gset_other hg1 _ _ hne1
  refine hodd i hi j hj pc ?_
  rw [← e1, ← e2, ← e3]
  exact hpc

theorem remove_preserves_odd : ∀ (l : List Square) (b b2 : Board),
    oddSquaresOnly b.board = true → Board.remove b l = some b2 →
    oddSquaresOnly b2.board = true := by
  intro l
  induction l with
  | nil =>
    intro b b2 hodd h
    simp only [remove_nil, Option.some.injEq] at h
    rw [← h]
    exact hodd
  | cons x t ih =>
    intro b b2 hodd h
    cases x with
    | none => rw [remove_cons_none] at h; exact Option.noConfusion h
    | some q =>
      cases hset : gset b.board q.row q.col none with
      | none => rw [remove_cons_fail b q t hset] at h; exact Option.noConfusion h
      | some g2 =>
        rw [remove_cons_eq b q t g2 hset] at h
        have hg2odd : oddSquaresOnly g2 = true := by
          rw [oddSquaresOnly_iff] at hodd ⊢
          intro i hi j hj pc hpc
          by_cases heq : (q.row = (i : Int) ∧ q.col = (j : Int))
          · have hcell := gget_gset_self hset
            rw [heq.1, heq.2] at hcell
            rw [hcell] at hpc
            exact absurd (Option.some.inj hpc) (by simp)
          · rw [gget_gset_other hset _ _ (by tauto)] at hpc
            exact hodd i hi j hj pc hpc
        refine ih _ _ ?_ h
        by_cases hc : q.color = Color.RED
        · rw [if_pos hc]; exact hg2odd
        · rw [if_neg hc]; exact hg2odd

/-
Claim theorems.
-/

/-- C1 counterexample: on the double-jump board (WHITE at (2,1), RED at (3,2)
and (5,4), (4,3) and (6,5) empty), get_valid_moves DOES return (4,3) as a
destination key, contrary to the claim that it must not appear (the
traversal records the single-jump landing square before recursing). -/
theorem C1_counterexample :
    (Board.get_valid_moves board1 pW21).map (fun m => dmem m (4, 3)) = some true := by
  rfl

/-- C1 (amended): on the double-jump board, get_valid_moves returns exactly
the simple step (3,0), the single jump (4,3) capturing the RED piece at
(3,2), and the double jump (6,5) capturing both RED pieces — so (6,5) does
carry both captures, but (4,3) is also offered: stopping after the first
jump is allowed by the generator. -/
theorem C1_double_jump_moves :
    Board.get_valid_moves board1 pW21 =
      some [((3, 0), []), ((4, 3), [pR32]), ((6, 5), [pR54, pR32])] := by
  rfl

/-- C2 counterexample: a WHITE non-king moved by Board.move to row 0 — the
farthest row of the OTHER color's direction of travel (WHITE advances
toward increasing rows; its farthest row is ROWS − 1 = 7) — is nevertheless
promoted, because the code tests `row == ROWS - 1 or row == 0` with no
regard to color. -/
theorem C2_counterexample :
    pC2.color = Color.WHITE ∧ pC2.king = false ∧ (0 : Int) ≠ ROWS - 1 ∧
    (Board.move bC2 pC2 0 1).map (fun out => out.2.king) = some true := by
  exact ⟨rfl, rfl, by norm_num [ROWS], rfl⟩

/-- C2 (amended): after Board.move relocates a piece, its king flag is true
exactly when it was already a king or the destination row is ROWS − 1 or 0,
for either color; a piece that is already a king keeps its flag (promotion
is idempotent), and the outcome does not depend on captures (Board.move
takes no capture information at all). -/
theorem C2_promotion_rule (b : Board) (p : Piece) (row col : Int) (out : Board × Piece)
    (h : Board.move b p row col = some out) :
    (out.2.king = true ↔ (p.king = true ∨ row = ROWS - 1 ∨ row = 0)) ∧
    (p.king = true → out.2.king = true) ∧
    out.2.row = row ∧ out.2.col = col ∧ out.2.color = p.color := by
  have hout := board_move_out b p row col out h
  by_cases hcond : ((row = ROWS - 1 ∨ row = 0) ∧ p.king = false)
  · rw [hout, if_pos hcond]
    exact ⟨⟨fun _ => Or.inr hcond.1, fun _ => rfl⟩, fun _ => rfl, rfl, rfl, rfl⟩
  · rw [hout, if_neg hcond]
    refine ⟨⟨fun h2 => Or.inl h2, fun h2 => ?_⟩, fun h2 => h2, rfl, rfl, rfl⟩
    rcases h2 with h2 | h2
    · exact h2
    · cases hk : p.king with
      | true => rfl
      | false => exact absurd ⟨h2, hk⟩ hcond

/-- C2 witness: the promotion rule applied to the concrete WHITE man moved
to (0,1): its king flag ends up true. -/
theorem C2_witness :
    ((Board.move bC2 pC2 0 1).getD (bC2, pC2)).2.king = true :=
  (C2_promotion_rule bC2 pC2 0 1 ((Board.move bC2 pC2 0 1).getD (bC2, pC2)) (by rfl)).1.mpr
    (Or.inr (Or.inr rfl))

/-- C3 counterexample: the RED piece reference pC3 points at (0,1), which is
empty on bC3, yet Board.remove still decrements red_left from 1 to 0 — the
guard `if piece != 0` tests the list element against the empty sentinel,
not whether the grid square holds the piece, so removal of an absent piece
is NOT a live-count no-op. -/
theorem C3_counterexample :
    gget bC3.board pC3.row pC3.col = some none ∧ bC3.red_left = 1 ∧
    (Board.remove bC3 [some pC3]).map (fun b => b.red_left) = some 0 := by
  exact ⟨rfl, rfl, rfl⟩

/-- C3 (amended): for any Piece entry, Board.remove zeroes the entry's grid
square and decrements the matching color's live count whether or not the
square actually held that piece, and (second conjunct) raises no error when
the entry's coordinates are on the board: its only failure mode is an
out-of-range coordinate, never absence from the grid. -/
theorem C3_remove_absent :
    (∀ (b : Board) (p : Piece) (b2 : Board), Board.remove b [some p] = some b2 →
      gget b2.board p.row p.col = some none ∧
      (p.color = Color.RED → b2.red_left = b.red_left - 1 ∧ b2.white_left = b.white_left) ∧
      (p.color = Color.WHITE → b2.white_left = b.white_left - 1 ∧ b2.red_left = b.red_left)) ∧
    (∀ (b : Board) (p : Piece), wfG b.board = true → 0 ≤ p.row → p.row ≤ 7 →
      0 ≤ p.col → p.col ≤ 7 → (Board.remove b [some p]).isSome = true) := by
  constructor
  · intro b p b2 h
    cases hset : gset b.board p.row p.col none with
    | none => rw [remove_cons_fail b p [] hset] at h; exact Option.noConfusion h
    | some g2 =>
      rw [remove_cons_eq b p [] g2 hset, remove_nil] at h
      have hb2 := Option.some.inj h
      refine ⟨?_, ?_, ?_⟩
      · rw [← hb2]
        by_cases hc : p.color = Color.RED
        · rw [if_pos hc]
          exact gget_gset_self hset
        · rw [if_neg hc]
          exact gget_gset_self hset
      · intro hc
        rw [← hb2, if_pos hc]
        exact ⟨rfl, rfl⟩
      · intro hc
        have hcn : ¬ p.color = Color.RED := by rw [hc]; exact fun hx => Color.noConfusion hx
        rw [← hb2, if_neg hcn]
        exact ⟨rfl, rfl⟩
  · intro b p hwf h1 h2 h3 h4
    rcases remove_some_of_wf [p] b hwf
        (fun q hq => by
          simp only [List.mem_singleton] at hq
          rw [hq]
          exact ⟨h1, h2, h3, h4⟩) with ⟨b2, hb2, -⟩
    rw [show ([p].map some) = [some p] from rfl] at hb2
    rw [hb2]
    rfl

/-- C3 witness: the amended rule applied to the concrete stale reference —
the square ends empty, and the removal completes without error. -/
theorem C3_witness :
    gget bC3r.board pC3.row pC3.col = some none ∧
    (Board.remove bC3 [some pC3]).isSome = true :=
  ⟨(C3_remove_absent.1 bC3 pC3 bC3r (by rfl)).1,
   C3_remove_absent.2 bC3 pC3 (by decide) (by decide) (by decide) (by decide) (by decide)⟩

/-- C4 counterexample: in gC4 (WHITE at (2,1) selected, (3,0) offered),
clicking (3,0) makes the internal move succeed — yet after the call
Game.selected is still set (isSome = true), not cleared to None; only the
turn advanced.  Game.select and Game._move never write selected on the
success path. -/
theorem C4_counterexample :
    (Game._move gC4 3 0).map (fun x => x.2) = some true ∧
    (Game.select gC4 3 0).map (fun x => (x.1.selected.isSome, x.1.turn)) =
      some (true, Color.RED) := by
  exact ⟨rfl, rfl⟩

/-- C4 (amended): when select is called with a piece selected and the move
application for the clicked square succeeds, the turn advances and the
offered moves are cleared, but the selection is NOT cleared: `selected`
still references the piece that was selected (neither select nor _move
reassigns it on this path; in Python it is the just-moved object), because
the fall-through re-selection fails — the moved piece no longer matches
the new turn. -/
theorem C4_selection_retained (g : Game) (sel ptm : Piece) (row col : Int) (out : Game × Bool)
    (hwf : wfG g.board.board = true)
    (hsel : g.selected = some sel)
    (hk : dmem g.valid_moves (row, col) = true)
    (hp : Board.get_piece g.board sel.row sel.col = some (some ptm))
    (hsrcp : gget g.board.board ptm.row ptm.col = some (some ptm))
    (hcol : ptm.color = g.turn)
    (hout : Game.select g row col = some out) :
    out.1.selected = some sel ∧ out.1.valid_moves = [] ∧
      out.1.turn = (if g.turn = Color.RED then Color.WHITE else Color.RED) :=
  (select_success_core g sel ptm row col out hwf hsel hk hp hsrcp hcol hout).2

/-- C4 witness: the amended statement at the concrete click: the selection
survives, the offered moves clear, the turn flips to RED. -/
theorem C4_witness :
    outC4.1.selected = some pW21 ∧ outC4.1.valid_moves = [] ∧
      outC4.1.turn = (if gC4.turn = Color.RED then Color.WHITE else Color.RED) :=
  C4_selection_retained gC4 pW21 pW21 3 0 outC4 (by decide) rfl (by rfl) (by rfl) (by rfl)
    rfl (by rfl)

/-- C5: with a piece selected, when applying the clicked square as a move
fails, the selection is dropped and the same click is re-evaluated as a
fresh selection in the same call: a square holding a piece of the current
turn's color becomes the new selection, its moves are computed, and the
call returns success — one click both deselects and re-selects. -/
theorem C5_reselect_after_failed_move (g : Game) (sel q : Piece) (row col : Int) (vm : Moves)
    (hsel : g.selected = some sel)
    (hfail : Game._move g row col = some (g, false))
    (hq : Board.get_piece g.board row col = some (some q))
    (hcol : q.color = g.turn)
    (hvm : Board.get_valid_moves g.board q = some vm) :
    Game.select g row col =
      some ({ g with selected := some q, valid_moves := vm }, true) :=
  select_reselect_core g sel q row col vm hsel hfail hq hcol hvm

/-- C5 witness: in gC5 (WHITE at (2,1) selected with no offered moves),
clicking the other WHITE man at (1,0) fails as a move and re-selects that
man, returning success. -/
theorem C5_witness :
    Game.select gC5 1 0 = some ({ gC5 with selected := some qC5, valid_moves := vmC5 }, true) :=
  C5_reselect_after_failed_move gC5 pW21 qC5 1 0 vmC5 rfl (by rfl) (by rfl) rfl (by rfl)

/-- C6: the _move contract.  It fails (returning the state unchanged with
False) when no piece is selected or the clicked square is not an offered
key; any False outcome leaves the state unchanged; a True outcome implies a
piece was selected and the key was offered, and ends with offeredMoves
cleared, the turn flipped, and selected untouched; and under the in-range
consistency conditions, a selected piece with an offered key produces
success, with the board obtained by Board.move followed by Board.remove of
the captured list when it is non-empty. -/
theorem C6_move_contract :
    (∀ (g : Game) (row col : Int), g.selected = none →
      Game._move g row col = some (g, false)) ∧
    (∀ (g : Game) (sel : Piece) (row col : Int), g.selected = some sel →
      dmem g.valid_moves (row, col) = false → Game._move g row col = some (g, false)) ∧
    (∀ (g : Game) (row col : Int) (gm : Game),
      Game._move g row col = some (gm, false) → gm = g) ∧
    (∀ (g : Game) (row col : Int) (g2 : Game), Game._move g row col = some (g2, true) →
      (∃ sel, g.selected = some sel) ∧ dmem g.valid_moves (row, col) = true ∧
      g2.valid_moves = [] ∧
      g2.turn = (if g.turn = Color.RED then Color.WHITE else Color.RED) ∧
      g2.selected = g.selected) ∧
    (∀ (g : Game) (sel ptm : Piece) (row col : Int) (skipped : List Piece),
      wfG g.board.board = true → g.selected = some sel →
      dmem g.valid_moves (row, col) = true →
      Board.get_piece g.board sel.row sel.col = some (some ptm) →
      dget g.valid_moves (row, col) = some skipped →
      (0 ≤ ptm.row ∧ ptm.row ≤ 7 ∧ 0 ≤ ptm.col ∧ ptm.col ≤ 7) →
      (0 ≤ row ∧ row ≤ 7 ∧ 0 ≤ col ∧ col ≤ 7) →
      (∀ q ∈ skipped, 0 ≤ q.row ∧ q.row ≤ 7 ∧ 0 ≤ q.col ∧ q.col ≤ 7) →
      ∃ bm b2, Board.move g.board ptm row col = some bm ∧
        (if skipped ≠ [] then Board.remove bm.1 (skipped.map some) else some bm.1) = some b2 ∧
        Game._move g row col = some (Game.change_turn { g with board := b2 }, true)) :=
  ⟨game_move_fail_none, game_move_fail_key, game_move_false_unchanged,
   game_move_true_elim, game_move_success⟩

/-- C6 witness: a failing click leaves gC5 unchanged with False, and the
offered click in gC4 succeeds through Board.move with no captures. -/
theorem C6_witness :
    Game._move gC5 1 0 = some (gC5, false) ∧
    (∃ bm b2, Board.move gC4.board pW21 3 0 = some bm ∧
      (if ([] : List Piece) ≠ [] then Board.remove bm.1 (([] : List Piece).map some)
        else some bm.1) = some b2 ∧
      Game._move gC4 3 0 = some (Game.change_turn { gC4 with board := b2 }, true)) :=
  ⟨C6_move_contract.2.1 gC5 pW21 1 0 rfl rfl,
   C6_move_contract.2.2.2.2 gC4 pW21 pW21 3 0 [] (by decide) rfl (by rfl) (by rfl) (by rfl)
     (by decide) (by decide) (fun q hq => absurd hq (List.not_mem_nil q))⟩

/-- C7: on a wellformed 8x8 board, for any piece whose coordinates lie in
0..7, get_valid_moves completes within the fixed recursion budget, never
reads the grid outside rows 0..7 and columns 0..7 (a `none` result would
signal exactly such an access or an exhausted budget), and returns a
mapping. -/
theorem C7_generator_total (b : Board) (p : Piece) (hwf : wfG b.board = true)
    (h1 : 0 ≤ p.row) (h2 : p.row ≤ 7) (h3 : 0 ≤ p.col) (h4 : p.col ≤ 7) :
    ∃ m, Board.get_valid_moves b p = some m := by
  rcases get_valid_moves_keys b p hwf h1 h2 h3 h4 with ⟨m, hm, -⟩
  exact ⟨m, hm⟩

/-- C7 witness: the generator completes on the initial board for the RED
man at (5,0). -/
theorem C7_witness :
    ∃ m, Board.get_valid_moves Board.initial
      { row := 5, col := 0, color := Color.RED, king := false } = some m :=
  C7_generator_total Board.initial _ (by decide) (by decide) (by decide) (by decide)
    (by decide)

/-- C8: the dark-square invariant.  create_board puts pieces only on
squares with odd row + col; on any wellformed board, every destination key
the generator returns for a piece on an odd square is again odd (and names
an empty square of the board); and both board mutations preserve the
invariant — Board.move when source and destination squares are odd, and
Board.remove always — so generated-and-applied moves keep every piece on
dark squares. -/
theorem C8_dark_square_invariant :
    oddSquaresOnly create_board = true ∧
    (∀ (b : Board) (p : Piece) (m : Moves), wfG b.board = true →
      0 ≤ p.row → p.row ≤ 7 → 0 ≤ p.col → p.col ≤ 7 → (p.row + p.col) % 2 = 1 →
      Board.get_valid_moves b p = some m →
      ∀ e ∈ m, (e.1.1 + e.1.2) % 2 = 1 ∧ gget b.board e.1.1 e.1.2 = some none) ∧
    (∀ (b : Board) (p : Piece) (row col : Int) (out : Board × Piece),
      oddSquaresOnly b.board = true → (p.row + p.col) % 2 = 1 → (row + col) % 2 = 1 →
      Board.move b p row col = some out → oddSquaresOnly out.1.board = true) ∧
    (∀ (b : Board) (l : List Square) (b2 : Board), oddSquaresOnly b.board = true →
      Board.remove b l = some b2 → oddSquaresOnly b2.board = true) := by
  refine ⟨by decide, ?_, move_preserves_odd, fun b l b2 h1 h2 => remove_preserves_odd l b b2 h1 h2⟩
  intro b p m hwf h1 h2 h3 h4 hodd hm
  rcases get_valid_moves_keys b p hwf h1 h2 h3 h4 with ⟨m2, hm2, hkeys⟩
  rw [hm] at hm2
  rw [← Option.some.inj hm2] at hkeys
  intro e he
  rcases hkeys e he with ⟨hpar, hemp⟩
  exact ⟨by omega, hemp⟩

/-- C8 witness: the initial board satisfies the coloring, and the keys
offered to the WHITE man at (2,1) on bG are all odd empty squares. -/
theorem C8_witness :
    oddSquaresOnly create_board = true ∧
    (∀ e ∈ vmG, (e.1.1 + e.1.2) % 2 = 1 ∧ gget bG.board e.1.1 e.1.2 = some none) :=
  ⟨C8_dark_square_invariant.1,
   C8_dark_square_invariant.2.1 bG pW21 vmG (by decide) (by decide) (by decide) (by decide)
     (by decide) (by decide) (by rfl)⟩

/-- C9: Board.winner tests red_left first with a non-strict comparison:
whenever red_left ≤ 0 the winner is WHITE, even if white_left is also at or
below zero; RED is returned exactly when white_left ≤ 0 while red_left is
still positive; and there is no winner exactly when both counts are
positive. -/
theorem C9_winner_red_first (b : Board) :
    (b.red_left ≤ 0 → Board.winner b = some Color.WHITE) ∧
    (Board.winner b = some Color.RED ↔ b.white_left ≤ 0 ∧ 0 < b.red_left) ∧
    (Board.winner b = none ↔ 0 < b.red_left ∧ 0 < b.white_left) := by
  unfold Board.winner
  split_ifs with h1 h2
  · refine ⟨fun _ => rfl, ?_, ?_⟩
    · constructor
      · intro h
        exact absurd (Option.some.inj h) (by decide)
      · intro h
        omega
    · constructor
      · intro h
        cases h
      · intro h
        omega
  · refine ⟨fun h => absurd h h1, ?_, ?_⟩
    · constructor
      · intro _
        exact ⟨h2, by omega⟩
      · intro _
        rfl
    · constructor
      · intro h
        cases h
      · intro h
        omega
  · refine ⟨fun h => absurd h h1, ?_, ?_⟩
    · constructor
      · intro h
        cases h
      · intro h
        omega
    · constructor
      · intro _
        exact ⟨by omega, by omega⟩
      · intro _
        rfl

/-- C9 witness: in the degenerate state with red_left = −1 and
white_left = −2 the winner is WHITE — red is checked first and the
comparison is ≤ 0, not = 0. -/
theorem C9_witness : Board.winner degBoard = some Color.WHITE :=
  (C9_winner_red_first degBoard).1 (by decide)

/-- C10: when select successfully applies a move (the clicked square was an
offered destination of the selected piece, which matches the current turn),
the call itself returns False: the turn has flipped, so the moved piece now
at (row, col) no longer matches currentTurn and the fall-through
re-selection fails. -/
theorem C10_select_returns_false (g : Game) (sel ptm : Piece) (row col : Int)
    (out : Game × Bool)
    (hwf : wfG g.board.board = true)
    (hsel : g.selected = some sel)
    (hk : dmem g.valid_moves (row, col) = true)
    (hp : Board.get_piece g.board sel.row sel.col = some (some ptm))
    (hsrcp : gget g.board.board ptm.row ptm.col = some (some ptm))
    (hcol : ptm.color = g.turn)
    (hout : Game.select g row col = some out) :
    out.2 = false :=
  (select_success_core g sel ptm row col out hwf hsel hk hp hsrcp hcol hout).1

/-- C10 witness: the concrete successful click in gC4 returns False. -/
theorem C10_witness : outC4.2 = false :=
  C10_select_returns_false gC4 pW21 pW21 3 0 outC4 (by decide) rfl (by rfl) (by rfl) (by rfl)
    rfl (by rfl)
